import Mathlib

/-!
Verification of the auto-navigation index-synchronization engine
(source: src/main.js of the Obsidian-Custom-Navigation plugin).

The vault (document store) is modelled as a tree of entries; all pure
computations of the engine (exclusion filter, tree scanner, recursive
content builder, level policies) are translated directly from the source,
and the store-mutating synchronization pass is modelled as a function from
the tree to the updated tree together with the number of create/overwrite
operations it performs.  Host string primitives used by the source
(String.prototype.trim, String.prototype.split, localeCompare with
numeric collation, Array.prototype.sort) are modelled explicitly below.
-/

/-! ## Host string primitives -/

/-- Models JavaScript String.prototype.trim on a list of characters:
drops leading and trailing whitespace. -/
def trimChars (cs : List Char) : List Char :=
  ((cs.dropWhile Char.isWhitespace).reverse.dropWhile Char.isWhitespace).reverse

/-- Models JavaScript String.prototype.trim (used in main.js lines 75, 117, 143
to compare current document content with freshly computed content). -/
def jsTrim (s : String) : String := String.mk (trimChars s.data)

/-- Models JavaScript String.prototype.split with a one-character separator:
the empty string splits to a single empty piece, exactly as in JS. -/
def splitCharAux (sep : Char) : List Char → List Char → List (List Char)
  | [], acc => [acc.reverse]
  | c :: cs, acc =>
    if c = sep then acc.reverse :: splitCharAux sep cs []
    else splitCharAux sep cs (c :: acc)

/-- Models `str.split(sep)` for a single-character separator. -/
def jsSplit (sep : Char) (s : String) : List String :=
  (splitCharAux sep s.data []).map String.mk

/-! ## Locale-aware numeric comparison

Models `a.localeCompare(b, undefined, { numeric: true })` (main.js lines 59,
91, 95, 164, 165): a string is tokenized into maximal digit runs (compared
as numbers) and non-digit runs (compared character-wise, case-insensitively
via lowercasing); token lists are compared lexicographically with numeric
tokens ordered before textual ones, mirroring digits sorting before letters.
Ties (equal keys) are kept in their original order by the stable sort below,
matching the stable Array.prototype.sort. -/

/-- A token of the numeric-aware collation key: a digit run (as its numeric
value) or a lowercased run of non-digit characters. -/
inductive NTok where
  | num (n : Nat)
  | str (s : List Char)

/-- Three-way comparison of characters by code point. -/
def charCmp (a b : Char) : Ordering := compare a.toNat b.toNat

/-- Lexicographic three-way comparison of lists from an element comparison. -/
def lexCmp (cmp : α → α → Ordering) : List α → List α → Ordering
  | [], [] => .eq
  | [], _ :: _ => .lt
  | _ :: _, [] => .gt
  | a :: as, b :: bs =>
    match cmp a b with
    | .eq => lexCmp cmp as bs
    | o => o

/-- Three-way comparison of collation tokens: numeric runs compare as
numbers, textual runs lexicographically; numbers order before text. -/
def NTok.cmp : NTok → NTok → Ordering
  | .num a, .num b => compare a b
  | .num _, .str _ => .lt
  | .str _, .num _ => .gt
  | .str a, .str b => lexCmp charCmp a b

/-- Tokenizer for the collation key: walks the characters keeping the run
being accumulated (numeric value of a digit run, or lowercased characters
of a text run). -/
def natKeyAux : List Char → Option NTok → List NTok
  | [], none => []
  | [], some t => [t]
  | c :: cs, acc =>
    if c.isDigit then
      match acc with
      | some (.num n) => natKeyAux cs (some (.num (n * 10 + (c.toNat - 48))))
      | some (.str s) => .str s :: natKeyAux cs (some (.num (c.toNat - 48)))
      | none => natKeyAux cs (some (.num (c.toNat - 48)))
    else
      match acc with
      | some (.num n) => .num n :: natKeyAux cs (some (.str [c.toLower]))
      | some (.str s) => natKeyAux cs (some (.str (s ++ [c.toLower])))
      | none => natKeyAux cs (some (.str [c.toLower]))

/-- The numeric-aware collation key of a string. -/
def natKey (s : String) : List NTok := natKeyAux s.data none

/-- Boolean comparison modelling `a.localeCompare(b, undefined,
{ numeric: true }) <= 0`, the order used by every sort in the source. -/
def natLe (a b : String) : Bool := lexCmp NTok.cmp (natKey a) (natKey b) != Ordering.gt

/-! ## Stable sort

Models Array.prototype.sort with a comparator (stable, as required by the
ECMAScript specification): a stable insertion sort. -/

/-- Insert an element into a sorted list, after any element it does not
strictly precede (this keeps equal elements in their original order). -/
def insertBy (le : α → α → Bool) (a : α) : List α → List α
  | [] => [a]
  | b :: bs => if le a b then a :: b :: bs else b :: insertBy le a bs

/-- Stable insertion sort with a boolean comparison. -/
def sortBy (le : α → α → Bool) (l : List α) : List α := l.foldr (insertBy le) []

/-! ## Settings -/

/-- The plugin settings object (main.js lines 6-9): both options are plain
strings exactly as in the source. -/
structure Settings where
  excludedFolders : String
  navigationFileName : String
deriving Repr, DecidableEq

/-- DEFAULT_SETTINGS (main.js lines 6-9). -/
def DEFAULT_SETTINGS : Settings :=
  { excludedFolders := "Templates, Attachments, .trash"
  , navigationFileName := "Navigation" }

/-- The persisted data that `loadData()` returns: parsed JSON, so each of the
two recognized keys is either absent or holds a string; `none` for the whole
object models `loadData()` returning null for a fresh install. -/
structure SavedData where
  excludedFolders : Option String
  navigationFileName : Option String
deriving Repr, DecidableEq

/-- loadSettings (main.js lines 27-29):
`Object.assign({}, DEFAULT_SETTINGS, await this.loadData())` — start from the
defaults and overwrite each key present in the persisted mapping. -/
def loadSettings (saved : Option SavedData) : Settings :=
  match saved with
  | none => DEFAULT_SETTINGS
  | some d =>
    { excludedFolders := d.excludedFolders.getD DEFAULT_SETTINGS.excludedFolders
    , navigationFileName := d.navigationFileName.getD DEFAULT_SETTINGS.navigationFileName }

/-- getExcludedFolders (main.js lines 36-38):
`this.settings.excludedFolders.split(',').map(s => s.trim()).filter(s => s !== '')`. -/
def getExcludedFolders (s : Settings) : List String :=
  ((jsSplit ',' s.excludedFolders).map jsTrim).filter (fun x => x ≠ "")

/-- `excluded.includes(name)` on the list computed by getExcludedFolders. -/
def excludedContains (s : Settings) (nm : String) : Bool :=
  (getExcludedFolders s).contains nm

/-! ## The vault tree -/

/-- A node of the vault tree: a Document (TFile, with base name, extension
and text content) or a Container (TFolder, with its name and children).
The root is represented as a bare list of top-level entries. -/
inductive Entry where
  | file (basename ext content : String)
  | folder (name : String) (children : List Entry)
deriving Repr

/-- The display name: for a TFile `basename.ext` (TFile.name), for a TFolder
its folder name. -/
def Entry.name : Entry → String
  | .file b e _ => b ++ "." ++ e
  | .folder n _ => n

/-- `instanceof TFolder`. -/
def Entry.isFolder : Entry → Bool
  | .folder _ _ => true
  | .file _ _ _ => false

/-- `instanceof TFile`. -/
def Entry.isFile : Entry → Bool
  | .file _ _ _ => true
  | .folder _ _ => false

/-- TFile.basename (the folder name for a folder; only ever used on files). -/
def Entry.basename : Entry → String
  | .file b _ _ => b
  | .folder n _ => n

/-- TFile.extension (empty for a folder; only ever used on files). -/
def Entry.extension : Entry → String
  | .file _ e _ => e
  | .folder _ _ => ""

/-- The children of a folder (empty for a file). -/
def Entry.children : Entry → List Entry
  | .file _ _ _ => []
  | .folder _ ch => ch

/-- `vault.modify(file, content)` on a single node: replaces a file's text
content; a folder is left unchanged (the host would throw there). -/
def Entry.setContent : Entry → String → Entry
  | .file b e _, c => .file b e c
  | .folder n ch, _ => .folder n ch

/-- `vault.getAbstractFileByPath(folderPath + "/" + nm)` restricted to the
children of the folder at folderPath: the first child whose display name is
nm, if any. -/
def findByName : List Entry → String → Option Entry
  | [], _ => none
  | c :: cs, nm => if c.name == nm then some c else findByName cs nm

/-- `vault.modify` at a path inside a folder: replace the content of the
first child whose display name is nm. -/
def modifyFirst : List Entry → String → String → List Entry
  | [], _, _ => []
  | c :: cs, nm, content =>
    if c.name == nm then Entry.setContent c content :: cs
    else c :: modifyFirst cs nm content

/-! ## Expected content computation -/

/-- The folder filter shared by every scan of the source (main.js lines 46,
58, 90, 157): keep children that are folders and whose name is not in the
exclusion list. -/
def folderPred (s : Settings) (c : Entry) : Bool :=
  c.isFolder && !(excludedContains s c.name)

/-- The document filter shared by the first-level scan and the recursive
builder (main.js lines 94, 159): keep markdown files whose display name
differs from the designated index-document name. -/
def mdFilePred (excludeName : String) (c : Entry) : Bool :=
  c.isFile && c.extension == "md" && c.name != excludeName

/-- The filtered, sorted list of first-level folders enumerated by the root
index (main.js lines 57-59): root children that are folders and not excluded,
sorted by the numeric-aware name comparison. -/
def rootFolders (s : Settings) (rootChildren : List Entry) : List Entry :=
  sortBy (fun a b => natLe a.name b.name) (rootChildren.filter (folderPred s))

/-- Expected content of the root index document
(updateOrCreateRootNavigation, main.js lines 61-64):
a heading `#<navigationFileName>`, a blank line, then one link line
`- [[name/name|name]]` per non-excluded first-level folder (for a first-level
folder, TFolder.path equals its name). -/
def rootContent (s : Settings) (rootChildren : List Entry) : String :=
  "#" ++ s.navigationFileName ++ "\n\n"
    ++ String.join ((rootFolders s rootChildren).map
        (fun f => "- [[" ++ f.name ++ "/" ++ f.name ++ "|" ++ f.name ++ "]]\n"))

/-- The filtered, sorted sub-folder list of a first-level folder
(main.js lines 89-91). -/
def level2SubFolders (s : Settings) (ch : List Entry) : List Entry :=
  sortBy (fun a b => natLe a.name b.name) (ch.filter (folderPred s))

/-- The filtered, sorted markdown-file list of a first-level folder
(main.js lines 93-95): markdown files other than the folder's own index
document navName, sorted by base name. -/
def level2MdFiles (navName : String) (ch : List Entry) : List Entry :=
  sortBy (fun a b => natLe a.basename b.basename) (ch.filter (mdFilePred navName))

/-- Expected content of a first-level folder's index document
(updateOrCreateLevel2Navigation, main.js lines 97-106), for a folder named n
directly under the root (so its TFolder.path is n, and a sub-folder f has
path n + "/" + f.name): heading, blank line, one `- [[path/name|name]]` line
per sub-folder, then one `- [[basename]]` line per markdown file. -/
def level2Content (s : Settings) (n : String) (ch : List Entry) : String :=
  "#Navigation for " ++ n ++ "\n\n"
    ++ String.join ((level2SubFolders s ch).map
        (fun f => "- [[" ++ n ++ "/" ++ f.name ++ "/" ++ f.name ++ "|" ++ f.name ++ "]]\n"))
    ++ String.join ((level2MdFiles (n ++ ".md") ch).map
        (fun f => "- [[" ++ f.basename ++ "]]\n"))

/-- Two-space indentation for a nesting level (main.js line 151). -/
def indentOf (level : Nat) : String := String.join (List.replicate level "  ")

mutual
/-- buildRecursiveContent (main.js lines 149-177): the ordered, indented
outline of the subtree below an entry.  For each non-excluded sub-folder, in
numeric-aware sorted order, one bolded heading line at the current indentation
followed by the recursively built block of that sub-folder at the next level;
then one `- [[basename]]` line per sorted markdown file (the designated index
document excluded by name).  To obtain structural recursion the recursive
block is computed alongside every child by childBlocks and the blocks of
non-subfolder or excluded children (which the source never recurses into)
are discarded by the filter, which matches the source's traversal
element for element. -/
def buildRecursiveContent (s : Settings) (e : Entry) (excludeName : String) (level : Nat) :
    List String :=
  match e with
  | .file _ _ _ => []
  | .folder _ ch =>
    let blocks := childBlocks s ch excludeName (level + 1)
    let subfolders := sortBy (fun a b => natLe a.1.name b.1.name)
        (blocks.filter (fun p => folderPred s p.1))
    let files := sortBy (fun a b => natLe a.basename b.basename)
        (ch.filter (mdFilePred excludeName))
    (subfolders.map
        (fun p => (indentOf level ++ "- **" ++ p.1.name ++ "**") :: p.2)).flatten
      ++ files.map (fun f => indentOf level ++ "- [[" ++ f.basename ++ "]]")

/-- Pairs each child with its recursively built block (see
buildRecursiveContent). -/
def childBlocks (s : Settings) (ch : List Entry) (excludeName : String) (level : Nat) :
    List (Entry × List String) :=
  match ch with
  | [] => []
  | c :: cs =>
    (c, buildRecursiveContent s c excludeName level) :: childBlocks s cs excludeName level
end

/-- Expected content of a second-level folder's index document
(updateOrCreateLevel3Navigation, main.js lines 131-132): heading, blank line,
the builder's lines joined with newlines, and a trailing newline. -/
def level3Content (s : Settings) (n : String) (ch : List Entry) : String :=
  "#Navigation for " ++ n ++ "\n\n"
    ++ String.intercalate "\n"
        (buildRecursiveContent s (.folder n ch) (n ++ ".md") 0)
    ++ "\n"

/-! ## The reconcile step and the synchronization pass

The pass is modelled as a function from the tree to the updated tree
together with the number of store writes (creates plus overwrites) it
performs.  In this tree model the host is sequential: a create succeeds
exactly when no entry with the target name exists, which is what
`getAbstractFileByPath` just checked, so the source's catch-block around
`vault.create` (its recovery from a concurrent creation race) is
unreachable here; the race itself is modelled separately by
reconcileHost below. -/

/-- The create-or-update step the source repeats at every level (main.js
lines 66-78, 108-120, 134-146), acting on the children of the folder that
contains the target path: look the target up; if absent, create it with the
expected content (one write); if a file with different trimmed content is
found, overwrite it (one write); if the trimmed contents agree, do nothing.
If the entry at the target path is a folder, `vault.read` on it would throw
and abort the pass; the model performs no write and leaves the children
unchanged in that branch (the theorems about the pass are unaffected because
that branch changes nothing). -/
def reconcileChild (ch : List Entry) (base ext content : String) : List Entry × Nat :=
  match findByName ch (base ++ "." ++ ext) with
  | none => (ch ++ [Entry.file base ext content], 1)
  | some (Entry.file _ _ old) =>
    if jsTrim old = jsTrim content then (ch, 0)
    else (modifyFirst ch (base ++ "." ++ ext) content, 1)
  | some (Entry.folder _ _) => (ch, 0)

/-- updateOrCreateLevel3Navigation (main.js lines 123-147) as a tree
transformation on the visited folder: skip excluded folders entirely;
otherwise compute the expected content from the current children (main.js
line 131 runs before the write) and reconcile the folder's own index
document `name.md` inside it. -/
def level3Transform (s : Settings) (e : Entry) : Entry × Nat :=
  match e with
  | .file b x c => (.file b x c, 0)
  | .folder n ch =>
    if excludedContains s n then (.folder n ch, 0)
    else
      let content := level3Content s n ch
      let r := reconcileChild ch n "md" content
      (.folder n r.1, r.2)

/-- The per-child action of the forEach at main.js line 99-102: a child that
is a non-excluded folder undergoes updateOrCreateLevel3Navigation, every
other child is left alone. -/
def level3Step (s : Settings) (c : Entry) : Entry × Nat :=
  if folderPred s c then level3Transform s c else (c, 0)

/-- updateOrCreateLevel2Navigation (main.js lines 81-121) as a tree
transformation on a first-level folder: skip excluded folders (the
parent-is-root guard holds by construction, the pass only applies this to
root children); compute the expected flat listing from the current children;
trigger updateOrCreateLevel3Navigation on every non-excluded sub-folder
(main.js line 101); then reconcile the folder's index document `name.md`. -/
def level2Transform (s : Settings) (e : Entry) : Entry × Nat :=
  match e with
  | .file b x c => (.file b x c, 0)
  | .folder n ch =>
    if excludedContains s n then (.folder n ch, 0)
    else
      let content := level2Content s n ch
      let stepped := ch.map (level3Step s)
      let r := reconcileChild (stepped.map Prod.fst) n "md" content
      (.folder n r.1, (stepped.map Prod.snd).sum + r.2)

/-- The per-child action of the loop at main.js lines 45-49: a root child
that is a non-excluded folder undergoes updateOrCreateLevel2Navigation,
every other child is left alone. -/
def level2Step (s : Settings) (c : Entry) : Entry × Nat :=
  if folderPred s c then level2Transform s c else (c, 0)

/-- initializeStructure (main.js lines 40-50): one full synchronization pass
over the root children: reconcile the root index document
`navigationFileName.md` against the expected root content (computed before
the write, main.js lines 52-64), then run updateOrCreateLevel2Navigation on
every first-level folder that is not excluded.  Returns the updated root
children and the total number of store writes of the pass. -/
def initializeStructure (s : Settings) (rootChildren : List Entry) : List Entry × Nat :=
  let content := rootContent s rootChildren
  let r := reconcileChild rootChildren s.navigationFileName "md" content
  let stepped := r.1.map (level2Step s)
  (stepped.map Prod.fst, r.2 + (stepped.map Prod.snd).sum)

/-! ## The reconcile step against a fallible host

For the error-handling claims the reconcile step is modelled once more, this
time over the observable outcomes of the host's vault operations, so that a
concurrent creation race and read/create/modify failures can be injected.
This mirrors the identical blocks at main.js lines 66-78, 108-120 and
134-146 operation for operation. -/

/-- A store operation the reconcile step performs: a creation attempt at the
target path with the given content, or an overwrite with the given content. -/
inductive VaultOp where
  | tryCreate (content : String)
  | overwrite (content : String)
deriving Repr, DecidableEq

/-- The host-side outcomes a single reconcile step can observe:
the initial lookup of the target path (the content of the document found
there, if any), whether the creation attempt fails (with an error message:
a concurrent-creation race or any other create failure such as a permission
error), the re-fetch after a failed create, and the outcomes of the read
and overwrite calls. -/
structure HostOutcomes where
  lookup1 : Option String
  createError : Option String
  lookup2 : Option String
  readError : Option String
  modifyError : Option String
deriving Repr, DecidableEq

/-- The reconcile step of the source against host outcomes, returning the
operations attempted in order, or the first uncaught host error:

if the initial lookup finds nothing, attempt creation; a create failure of
any kind is caught (main.js `catch (e)`), after which the target is fetched
again and overwritten only if now present (and only that overwrite's own
failure propagates); if the initial lookup finds a document, read it (a read
failure propagates) and overwrite exactly when the trimmed contents differ
(an overwrite failure propagates). -/
def reconcileHost (h : HostOutcomes) (expected : String) : Except String (List VaultOp) :=
  match h.lookup1 with
  | none =>
    match h.createError with
    | none => .ok [.tryCreate expected]
    | some _ =>
      match h.lookup2 with
      | none => .ok [.tryCreate expected]
      | some _ =>
        match h.modifyError with
        | none => .ok [.tryCreate expected, .overwrite expected]
        | some e => .error e
  | some current =>
    match h.readError with
    | some e => .error e
    | none =>
      if jsTrim current ≠ jsTrim expected then
        match h.modifyError with
        | none => .ok [.overwrite expected]
        | some e => .error e
      else .ok []

/-! ## Order properties of the numeric-aware comparison -/

theorem charCmp_lt_trans {a b c : Char} (h1 : charCmp a b = .lt) (h2 : charCmp b c = .lt) :
    charCmp a c = .lt := by
  simp only [charCmp, Nat.compare_eq_lt] at *
  exact Nat.lt_trans h1 h2

theorem charCmp_gt_iff (a b : Char) : charCmp a b = .gt ↔ charCmp b a = .lt := by
  simp only [charCmp, Nat.compare_eq_gt, Nat.compare_eq_lt]

theorem charCmp_eq_left {a b : Char} (h : charCmp a b = .eq) (c : Char) :
    charCmp a c = charCmp b c := by
  simp only [charCmp, Nat.compare_eq_eq] at h
  simp only [charCmp, h]

theorem charCmp_eq_right {b c : Char} (h : charCmp b c = .eq) (a : Char) :
    charCmp a b = charCmp a c := by
  simp only [charCmp, Nat.compare_eq_eq] at h
  simp only [charCmp, h]

theorem lexCmp_gt_iff (cmp : α → α → Ordering)
    (hgt : ∀ a b, cmp a b = .gt ↔ cmp b a = .lt) :
    ∀ x y, lexCmp cmp x y = .gt ↔ lexCmp cmp y x = .lt := by
  intro x
  induction x with
  | nil => intro y; cases y <;> simp [lexCmp]
  | cons a as ih =>
    intro y
    cases y with
    | nil => simp [lexCmp]
    | cons b bs =>
      simp only [lexCmp]
      cases hab : cmp a b with
      | eq =>
        have hba : cmp b a = .eq := by
          cases hba : cmp b a with
          | eq => rfl
          | lt =>
            have := (hgt a b).mpr hba
            rw [hab] at this
            cases this
          | gt =>
            have := (hgt b a).mp hba
            rw [hab] at this
            cases this
        rw [hba]
        exact ih bs
      | lt =>
        have hba : cmp b a = .gt := (hgt b a).mpr hab
        rw [hba]
        simp
      | gt =>
        have hba : cmp b a = .lt := (hgt a b).mp hab
        rw [hba]
        simp

theorem lexCmp_lt_trans (cmp : α → α → Ordering)
    (hlt : ∀ a b c, cmp a b = .lt → cmp b c = .lt → cmp a c = .lt)
    (heL : ∀ a b, cmp a b = .eq → ∀ c, cmp a c = cmp b c)
    (heR : ∀ b c, cmp b c = .eq → ∀ a, cmp a b = cmp a c) :
    ∀ x y z, lexCmp cmp x y = .lt → lexCmp cmp y z = .lt → lexCmp cmp x z = .lt := by
  intro x
  induction x with
  | nil =>
    intro y z h1 h2
    cases y with
    | nil => cases h1
    | cons b bs =>
      cases z with
      | nil => cases h2
      | cons c cs => rfl
  | cons a as ih =>
    intro y z h1 h2
    cases y with
    | nil => cases h1
    | cons b bs =>
      cases z with
      | nil => cases h2
      | cons c cs =>
        simp only [lexCmp] at h1 h2 ⊢
        cases hab : cmp a b with
        | gt => rw [hab] at h1; cases h1
        | lt =>
          rw [hab] at h1
          cases hbc : cmp b c with
          | gt => rw [hbc] at h2; cases h2
          | lt => rw [hlt a b c hab hbc]
          | eq => rw [← heR b c hbc a, hab]
        | eq =>
          rw [hab] at h1
          cases hbc : cmp b c with
          | gt => rw [hbc] at h2; cases h2
          | lt => rw [heL a b hab c, hbc]
          | eq =>
            rw [hbc] at h2
            rw [heL a b hab c, hbc]
            exact ih bs cs h1 h2

theorem lexCmp_eq_left (cmp : α → α → Ordering)
    (heL : ∀ a b, cmp a b = .eq → ∀ c, cmp a c = cmp b c) :
    ∀ x y, lexCmp cmp x y = .eq → ∀ z, lexCmp cmp x z = lexCmp cmp y z := by
  intro x
  induction x with
  | nil =>
    intro y h z
    cases y with
    | nil => rfl
    | cons b bs => cases h
  | cons a as ih =>
    intro y h z
    cases y with
    | nil => cases h
    | cons b bs =>
      simp only [lexCmp] at h ⊢
      cases hab : cmp a b with
      | lt => rw [hab] at h; cases h
      | gt => rw [hab] at h; cases h
      | eq =>
        rw [hab] at h
        cases z with
        | nil => rfl
        | cons c cs =>
          simp only [lexCmp]
          rw [heL a b hab c]
          cases hbc : cmp b c with
          | lt => rfl
          | gt => rfl
          | eq => exact ih bs h cs

theorem lexCmp_eq_right (cmp : α → α → Ordering)
    (heR : ∀ b c, cmp b c = .eq → ∀ a, cmp a b = cmp a c) :
    ∀ y z, lexCmp cmp y z = .eq → ∀ x, lexCmp cmp x y = lexCmp cmp x z := by
  intro y
  induction y with
  | nil =>
    intro z h x
    cases z with
    | nil => rfl
    | cons c cs => cases h
  | cons b bs ih =>
    intro z h x
    cases z with
    | nil => cases h
    | cons c cs =>
      simp only [lexCmp] at h ⊢
      cases hbc : cmp b c with
      | lt => rw [hbc] at h; cases h
      | gt => rw [hbc] at h; cases h
      | eq =>
        rw [hbc] at h
        cases x with
        | nil => rfl
        | cons a as =>
          simp only [lexCmp]
          rw [heR b c hbc a]
          cases hac : cmp a c with
          | lt => rfl
          | gt => rfl
          | eq => exact ih cs h as

theorem ntokCmp_lt_trans : ∀ a b c : NTok, a.cmp b = .lt → b.cmp c = .lt → a.cmp c = .lt
  | .num x, .num y, .num z, h1, h2 => by
    simp only [NTok.cmp, Nat.compare_eq_lt] at h1 h2 ⊢
    exact Nat.lt_trans h1 h2
  | .num _, .num _, .str _, _, _ => rfl
  | .num _, .str _, .num _, _, h2 => nomatch h2
  | .num _, .str _, .str _, _, _ => rfl
  | .str _, .num _, _, h1, _ => nomatch h1
  | .str _, .str _, .num _, _, h2 => nomatch h2
  | .str x, .str y, .str z, h1, h2 => by
    simp only [NTok.cmp] at h1 h2 ⊢
    exact lexCmp_lt_trans charCmp (fun a b c => charCmp_lt_trans)
      (fun a b h => charCmp_eq_left h) (fun b c h => charCmp_eq_right h) x y z h1 h2

theorem ntokCmp_gt_iff : ∀ a b : NTok, a.cmp b = .gt ↔ b.cmp a = .lt
  | .num x, .num y => by
    simp only [NTok.cmp]
    rw [Nat.compare_eq_gt, Nat.compare_eq_lt]
  | .num _, .str _ => by simp [NTok.cmp]
  | .str _, .num _ => by simp [NTok.cmp]
  | .str x, .str y => lexCmp_gt_iff charCmp charCmp_gt_iff x y

theorem ntokCmp_eq_left : ∀ a b : NTok, a.cmp b = .eq → ∀ c : NTok, a.cmp c = b.cmp c
  | .num x, .num y, h, c => by
    simp only [NTok.cmp, Nat.compare_eq_eq] at h
    rw [h]
  | .num _, .str _, h, _ => nomatch h
  | .str _, .num _, h, _ => nomatch h
  | .str x, .str y, h, .num z => rfl
  | .str x, .str y, h, .str z => by
    simp only [NTok.cmp] at h ⊢
    exact lexCmp_eq_left charCmp (fun a b hx => charCmp_eq_left hx) x y h z

theorem ntokCmp_eq_right : ∀ b c : NTok, b.cmp c = .eq → ∀ a : NTok, a.cmp b = a.cmp c
  | .num x, .num y, h, a => by
    simp only [NTok.cmp, Nat.compare_eq_eq] at h
    rw [h]
  | .num _, .str _, h, _ => nomatch h
  | .str _, .num _, h, _ => nomatch h
  | .str x, .str y, h, .num z => rfl
  | .str x, .str y, h, .str z => by
    simp only [NTok.cmp] at h ⊢
    exact lexCmp_eq_right charCmp (fun b c hx => charCmp_eq_right hx) x y h z

theorem natLe_total (a b : String) : natLe a b = true ∨ natLe b a = true := by
  cases h : lexCmp NTok.cmp (natKey a) (natKey b) with
  | lt => left; unfold natLe; rw [h]; rfl
  | eq => left; unfold natLe; rw [h]; rfl
  | gt =>
    right
    have hba : lexCmp NTok.cmp (natKey b) (natKey a) = .lt :=
      (lexCmp_gt_iff NTok.cmp ntokCmp_gt_iff _ _).mp h
    unfold natLe
    rw [hba]
    rfl

theorem natLe_trans (a b c : String) (h1 : natLe a b = true) (h2 : natLe b c = true) :
    natLe a c = true := by
  unfold natLe at *
  cases hab : lexCmp NTok.cmp (natKey a) (natKey b) with
  | gt => rw [hab] at h1; exact absurd h1 (by decide)
  | lt =>
    cases hbc : lexCmp NTok.cmp (natKey b) (natKey c) with
    | gt => rw [hbc] at h2; exact absurd h2 (by decide)
    | lt =>
      have hac := lexCmp_lt_trans NTok.cmp ntokCmp_lt_trans ntokCmp_eq_left ntokCmp_eq_right
        _ _ _ hab hbc
      rw [hac]
      rfl
    | eq =>
      have hac : lexCmp NTok.cmp (natKey a) (natKey c) = .lt := by
        rw [← lexCmp_eq_right NTok.cmp ntokCmp_eq_right _ _ hbc]
        exact hab
      rw [hac]
      rfl
  | eq =>
    have hac := lexCmp_eq_left NTok.cmp ntokCmp_eq_left _ _ hab (natKey c)
    rw [hac]
    exact h2

/-! ## Properties of the stable sort -/

theorem mem_insertBy (le : α → α → Bool) (a x : α) (l : List α) :
    x ∈ insertBy le a l ↔ x = a ∨ x ∈ l := by
  induction l with
  | nil => simp [insertBy]
  | cons b bs ih =>
    simp only [insertBy]
    split
    · simp
    · simp only [List.mem_cons, ih]
      tauto

theorem mem_sortBy (le : α → α → Bool) (x : α) (l : List α) :
    x ∈ sortBy le l ↔ x ∈ l := by
  induction l with
  | nil => simp [sortBy]
  | cons a as ih =>
    simp only [sortBy, List.foldr_cons] at *
    rw [mem_insertBy, ih, List.mem_cons]

theorem insertBy_pairwise (le : α → α → Bool)
    (htot : ∀ a b, le a b = true ∨ le b a = true)
    (htrans : ∀ a b c, le a b = true → le b c = true → le a c = true)
    (a : α) (l : List α) (h : l.Pairwise (fun x y => le x y = true)) :
    (insertBy le a l).Pairwise (fun x y => le x y = true) := by
  induction l with
  | nil => simp [insertBy]
  | cons b bs ih =>
    simp only [insertBy]
    rcases List.pairwise_cons.mp h with ⟨hb, hbs⟩
    split
    · rename_i hab
      refine List.pairwise_cons.mpr ⟨?_, h⟩
      intro x hx
      rcases List.mem_cons.mp hx with rfl | hx
      · exact hab
      · exact htrans a b x hab (hb x hx)
    · rename_i hab
      have hba : le b a = true := by
        rcases htot a b with h1 | h1
        · exact absurd h1 hab
        · exact h1
      refine List.pairwise_cons.mpr ⟨?_, ih hbs⟩
      intro x hx
      rcases (mem_insertBy le a x bs).mp hx with rfl | hx
      · exact hba
      · exact hb x hx

theorem sortBy_pairwise (le : α → α → Bool)
    (htot : ∀ a b, le a b = true ∨ le b a = true)
    (htrans : ∀ a b c, le a b = true → le b c = true → le a c = true)
    (l : List α) : (sortBy le l).Pairwise (fun x y => le x y = true) := by
  induction l with
  | nil => exact List.Pairwise.nil
  | cons a as ih => exact insertBy_pairwise le htot htrans a _ ih

theorem map_insertBy (le : α → α → Bool) (le2 : β → β → Bool) (f : α → β)
    (hfac : ∀ a b, le a b = le2 (f a) (f b)) (a : α) (l : List α) :
    (insertBy le a l).map f = insertBy le2 (f a) (l.map f) := by
  induction l with
  | nil => simp [insertBy]
  | cons b bs ih =>
    simp only [insertBy, List.map_cons]
    rw [← hfac]
    split <;> simp [ih]

theorem map_sortBy (le : α → α → Bool) (le2 : β → β → Bool) (f : α → β)
    (hfac : ∀ a b, le a b = le2 (f a) (f b)) (l : List α) :
    (sortBy le l).map f = sortBy le2 (l.map f) := by
  induction l with
  | nil => rfl
  | cons a as ih =>
    simp only [sortBy, List.foldr_cons, List.map_cons] at *
    rw [map_insertBy le le2 f hfac, ih]

/-! ## Lemmas about lookup and reconcile -/

theorem findByName_name : ∀ {ch : List Entry} {nm : String} {x : Entry},
    findByName ch nm = some x → x.name = nm
  | [], _, _, h => nomatch h
  | c :: cs, nm, x, h => by
    simp only [findByName] at h
    split at h
    · rename_i hc
      cases h
      exact eq_of_beq hc
    · exact findByName_name h

theorem findByName_append_none {ch : List Entry} {nm : String}
    (h : findByName ch nm = none) (x : Entry) (hx : x.name = nm) :
    findByName (ch ++ [x]) nm = some x := by
  induction ch with
  | nil =>
    simp only [List.nil_append, findByName]
    rw [hx]
    simp
  | cons c cs ih =>
    simp only [List.cons_append, findByName] at h ⊢
    split at h
    · cases h
    · rename_i hc
      rw [if_neg hc]
      exact ih h

theorem findByName_modifyFirst {ch : List Entry} {nm : String} {b e c0 : String}
    (h : findByName ch nm = some (.file b e c0)) (c : String) :
    findByName (modifyFirst ch nm c) nm = some (.file b e c) := by
  induction ch with
  | nil => cases h
  | cons x xs ih =>
    simp only [findByName] at h
    split at h
    · rename_i hx
      cases h
      simp only [modifyFirst, if_pos hx, Entry.setContent, findByName]
      have hn : ((Entry.file b e c).name == nm) = true := by
        have hh := eq_of_beq hx
        simp only [Entry.name] at hh ⊢
        rw [hh]
        exact beq_self_eq_true nm
      rw [if_pos hn]
    · rename_i hx
      simp only [modifyFirst, if_neg hx, findByName]
      exact ih h

theorem modifyFirst_filter (p : Entry → Bool) {ch : List Entry} {nm : String} {b e c0 : String}
    (h : findByName ch nm = some (.file b e c0)) (c : String)
    (hp1 : p (.file b e c0) = false) (hp2 : p (.file b e c) = false) :
    (modifyFirst ch nm c).filter p = ch.filter p := by
  induction ch with
  | nil => rfl
  | cons x xs ih =>
    simp only [findByName] at h
    split at h
    · rename_i hx
      cases h
      simp only [modifyFirst, if_pos hx, Entry.setContent]
      rw [List.filter_cons, List.filter_cons, hp1, hp2]
      simp
    · rename_i hx
      simp only [modifyFirst, if_neg hx, List.filter_cons]
      rw [ih h]

theorem filter_append_single (p : Entry → Bool) (l : List Entry) {x : Entry}
    (hx : p x = false) : (l ++ [x]).filter p = l.filter p := by
  rw [List.filter_append]
  simp [List.filter_cons, hx]

theorem reconcileChild_none {ch : List Entry} {b e c : String}
    (h : findByName ch (b ++ "." ++ e) = none) :
    reconcileChild ch b e c = (ch ++ [Entry.file b e c], 1) := by
  unfold reconcileChild
  rw [h]

theorem reconcileChild_file_eq {ch : List Entry} {b e c b0 e0 c0 : String}
    (h : findByName ch (b ++ "." ++ e) = some (.file b0 e0 c0))
    (ht : jsTrim c0 = jsTrim c) :
    reconcileChild ch b e c = (ch, 0) := by
  unfold reconcileChild
  rw [h]
  simp [ht]

theorem reconcileChild_file_ne {ch : List Entry} {b e c b0 e0 c0 : String}
    (h : findByName ch (b ++ "." ++ e) = some (.file b0 e0 c0))
    (ht : ¬ jsTrim c0 = jsTrim c) :
    reconcileChild ch b e c = (modifyFirst ch (b ++ "." ++ e) c, 1) := by
  unfold reconcileChild
  rw [h]
  simp [ht]

theorem reconcileChild_folder {ch : List Entry} {b e c n : String} {cs : List Entry}
    (h : findByName ch (b ++ "." ++ e) = some (.folder n cs)) :
    reconcileChild ch b e c = (ch, 0) := by
  unfold reconcileChild
  rw [h]

/-- Running the reconcile step a second time with the same expected content
performs no write and leaves the children unchanged. -/
theorem reconcileChild_twice (ch : List Entry) (b e c : String) :
    reconcileChild (reconcileChild ch b e c).1 b e c = ((reconcileChild ch b e c).1, 0) := by
  cases hf : findByName ch (b ++ "." ++ e) with
  | none =>
    rw [reconcileChild_none hf]
    exact reconcileChild_file_eq (findByName_append_none hf _ rfl) rfl
  | some x =>
    cases x with
    | folder n cs =>
      rw [reconcileChild_folder hf]
      exact reconcileChild_folder hf
    | file b0 e0 c0 =>
      by_cases ht : jsTrim c0 = jsTrim c
      · rw [reconcileChild_file_eq hf ht]
        exact reconcileChild_file_eq hf ht
      · rw [reconcileChild_file_ne hf ht]
        exact reconcileChild_file_eq (findByName_modifyFirst hf c) rfl

theorem reconcile_filter (p : Entry → Bool) (ch : List Entry) (b e c : String)
    (hp : ∀ b0 e0 c0, b0 ++ "." ++ e0 = b ++ "." ++ e → p (.file b0 e0 c0) = false) :
    ((reconcileChild ch b e c).1).filter p = ch.filter p := by
  cases hf : findByName ch (b ++ "." ++ e) with
  | none =>
    rw [reconcileChild_none hf]
    exact filter_append_single p ch (hp b e c rfl)
  | some x =>
    cases x with
    | folder n cs => rw [reconcileChild_folder hf]
    | file b0 e0 c0 =>
      have hname : b0 ++ "." ++ e0 = b ++ "." ++ e := findByName_name hf
      by_cases ht : jsTrim c0 = jsTrim c
      · rw [reconcileChild_file_eq hf ht]
      · rw [reconcileChild_file_ne hf ht]
        exact modifyFirst_filter p hf c (hp _ _ _ hname) (hp _ _ _ hname)

theorem isFolder_shape {x : Entry} (h : x.isFolder = true) :
    ∃ n ch, x = .folder n ch := by
  cases x with
  | file b e c => cases h
  | folder n ch => exact ⟨n, ch, rfl⟩

theorem mem_modifyFirst_folder {y : Entry} : ∀ {l : List Entry} {nm c : String},
    y ∈ modifyFirst l nm c → y.isFolder = true → y ∈ l
  | [], _, _, hy, _ => by cases hy
  | x :: xs, nm, c, hy, hfold => by
    simp only [modifyFirst] at hy
    split at hy
    · rcases List.mem_cons.mp hy with rfl | hy
      · cases x with
        | file b e cc => cases hfold
        | folder n ch => exact List.mem_cons_self _ _
      · exact List.mem_cons_of_mem _ hy
    · rcases List.mem_cons.mp hy with rfl | hy
      · exact List.mem_cons_self _ _
      · exact List.mem_cons_of_mem _ (mem_modifyFirst_folder hy hfold)

theorem mem_reconcile_folder {y : Entry} {ch : List Entry} {b e c : String}
    (hy : y ∈ (reconcileChild ch b e c).1) (hfold : y.isFolder = true) : y ∈ ch := by
  cases hf : findByName ch (b ++ "." ++ e) with
  | none =>
    rw [reconcileChild_none hf] at hy
    rcases List.mem_append.mp hy with hy | hy
    · exact hy
    · rcases List.mem_singleton.mp hy with rfl
      cases hfold
  | some x =>
    cases x with
    | folder n cs =>
      rw [reconcileChild_folder hf] at hy
      exact hy
    | file b0 e0 c0 =>
      by_cases ht : jsTrim c0 = jsTrim c
      · rw [reconcileChild_file_eq hf ht] at hy
        exact hy
      · rw [reconcileChild_file_ne hf ht] at hy
        exact mem_modifyFirst_folder hy hfold

theorem mem_reconcile_of_mem_folder {y : Entry} {ch : List Entry} {b e c : String}
    (hy : y ∈ ch) (hfold : y.isFolder = true) : y ∈ (reconcileChild ch b e c).1 := by
  cases hf : findByName ch (b ++ "." ++ e) with
  | none =>
    rw [reconcileChild_none hf]
    exact List.mem_append_left _ hy
  | some x =>
    cases x with
    | folder n cs =>
      rw [reconcileChild_folder hf]
      exact hy
    | file b0 e0 c0 =>
      by_cases ht : jsTrim c0 = jsTrim c
      · rw [reconcileChild_file_eq hf ht]
        exact hy
      · rw [reconcileChild_file_ne hf ht]
        clear hf
        induction ch with
        | nil => cases hy
        | cons x xs ih =>
          simp only [modifyFirst]
          split
          · rcases List.mem_cons.mp hy with rfl | hy
            · rename_i hx
              cases y with
              | file bb ee cc => cases hfold
              | folder nn chch => exact List.mem_cons_self _ _
            · exact List.mem_cons_of_mem _ hy
          · rcases List.mem_cons.mp hy with rfl | hy
            · exact List.mem_cons_self _ _
            · exact List.mem_cons_of_mem _ (ih hy)

theorem findByName_map {f : Entry → Entry} (hf : ∀ x, (f x).name = x.name) :
    ∀ (l : List Entry) (nm : String), findByName (l.map f) nm = (findByName l nm).map f
  | [], _ => rfl
  | a :: as, nm => by
    simp only [List.map_cons, findByName, hf a]
    split
    · rfl
    · exact findByName_map hf as nm

/-! ## Content-congruence lemmas

The synchronization pass only touches index documents (files named after
their folder, or the root index name); the lemmas below show that every
expected-content computation is unaffected by such touches. -/

theorem folderPred_file (s : Settings) (b e c : String) :
    folderPred s (.file b e c) = false := rfl

theorem mdFilePred_self (excludeName : String) {b e c : String}
    (h : b ++ "." ++ e = excludeName) : mdFilePred excludeName (.file b e c) = false := by
  unfold mdFilePred
  have hn : (Entry.file b e c).name = excludeName := by
    simp only [Entry.name]
    exact h
  rw [hn]
  simp [Entry.name, bne_self_eq_false]

theorem folderPred_congr {s : Settings} {x y : Entry} (hname : y.name = x.name)
    (hfold : y.isFolder = x.isFolder) : folderPred s y = folderPred s x := by
  unfold folderPred
  rw [hname, hfold]

theorem filter_map_pointwise (f : Entry → Entry) (p : Entry → Bool)
    (hp : ∀ c, p (f c) = p c) (hid : ∀ c, p c = true → f c = c) :
    ∀ ch : List Entry, (ch.map f).filter p = ch.filter p := by
  intro ch
  induction ch with
  | nil => rfl
  | cons c cs ih =>
    rw [List.map_cons, List.filter_cons, List.filter_cons, hp c]
    cases hc : p c
    · simpa using ih
    · rw [hid c hc]
      simpa using ih

theorem filter_names_map (f : Entry → Entry) (p : Entry → Bool)
    (hp : ∀ c, p (f c) = p c) (hname : ∀ c, (f c).name = c.name) :
    ∀ ch : List Entry,
      ((ch.map f).filter p).map Entry.name = (ch.filter p).map Entry.name := by
  intro ch
  induction ch with
  | nil => rfl
  | cons c cs ih =>
    rw [List.map_cons, List.filter_cons, List.filter_cons, hp c]
    cases hc : p c
    · simpa using ih
    · simpa [hname c] using ih

theorem rootFolders_names {s : Settings} {ch1 ch2 : List Entry}
    (h : (ch1.filter (folderPred s)).map Entry.name
       = (ch2.filter (folderPred s)).map Entry.name) :
    (rootFolders s ch1).map Entry.name = (rootFolders s ch2).map Entry.name := by
  unfold rootFolders
  rw [map_sortBy _ natLe Entry.name (fun a b => rfl),
      map_sortBy _ natLe Entry.name (fun a b => rfl), h]

theorem rootContent_congr (s : Settings) {ch1 ch2 : List Entry}
    (h : (ch1.filter (folderPred s)).map Entry.name
       = (ch2.filter (folderPred s)).map Entry.name) :
    rootContent s ch1 = rootContent s ch2 := by
  unfold rootContent
  have hmap : ∀ ch : List Entry,
      (rootFolders s ch).map
          (fun f => "- [[" ++ f.name ++ "/" ++ f.name ++ "|" ++ f.name ++ "]]\n")
        = ((rootFolders s ch).map Entry.name).map
            (fun nm => "- [[" ++ nm ++ "/" ++ nm ++ "|" ++ nm ++ "]]\n") := by
    intro ch
    rw [List.map_map]
    rfl
  rw [hmap, hmap, rootFolders_names h]

theorem level2SubFolders_names {s : Settings} {ch1 ch2 : List Entry}
    (h : (ch1.filter (folderPred s)).map Entry.name
       = (ch2.filter (folderPred s)).map Entry.name) :
    (level2SubFolders s ch1).map Entry.name = (level2SubFolders s ch2).map Entry.name := by
  unfold level2SubFolders
  rw [map_sortBy _ natLe Entry.name (fun a b => rfl),
      map_sortBy _ natLe Entry.name (fun a b => rfl), h]

theorem level2Content_congr (s : Settings) (n : String) {ch1 ch2 : List Entry}
    (hfold : (ch1.filter (folderPred s)).map Entry.name
           = (ch2.filter (folderPred s)).map Entry.name)
    (hfile : ch1.filter (mdFilePred (n ++ ".md")) = ch2.filter (mdFilePred (n ++ ".md"))) :
    level2Content s n ch1 = level2Content s n ch2 := by
  unfold level2Content
  have hmap : ∀ ch : List Entry,
      (level2SubFolders s ch).map
          (fun f => "- [[" ++ n ++ "/" ++ f.name ++ "/" ++ f.name ++ "|" ++ f.name ++ "]]\n")
        = ((level2SubFolders s ch).map Entry.name).map
            (fun nm => "- [[" ++ n ++ "/" ++ nm ++ "/" ++ nm ++ "|" ++ nm ++ "]]\n") := by
    intro ch
    rw [List.map_map]
    rfl
  have hfiles : level2MdFiles (n ++ ".md") ch1 = level2MdFiles (n ++ ".md") ch2 := by
    unfold level2MdFiles
    rw [hfile]
  rw [hmap, hmap, level2SubFolders_names hfold, hfiles]

theorem childBlocks_eq_map (s : Settings) (excludeName : String) (level : Nat) :
    ∀ ch : List Entry,
      childBlocks s ch excludeName level
        = ch.map (fun c => (c, buildRecursiveContent s c excludeName level))
  | [] => rfl
  | c :: cs => by
    rw [List.map_cons, ← childBlocks_eq_map s excludeName level cs]
    rfl

theorem buildRec_folder (s : Settings) (n : String) (ch : List Entry) (ex : String)
    (lvl : Nat) :
    buildRecursiveContent s (.folder n ch) ex lvl
      = ((sortBy (fun a b => natLe a.1.name b.1.name)
            ((childBlocks s ch ex (lvl + 1)).filter (fun p => folderPred s p.1))).map
          (fun p => (indentOf lvl ++ "- **" ++ p.1.name ++ "**") :: p.2)).flatten
        ++ (sortBy (fun a b => natLe a.basename b.basename)
              (ch.filter (mdFilePred ex))).map
            (fun f => indentOf lvl ++ "- [[" ++ f.basename ++ "]]") := rfl

/-- The builder's output is determined by the filtered children: its two
scans see exactly the included sub-folders and included documents. -/
theorem buildRec_congr (s : Settings) (n1 n2 : String) {ch1 ch2 : List Entry}
    (ex : String) (lvl : Nat)
    (hsub : ch1.filter (folderPred s) = ch2.filter (folderPred s))
    (hfile : ch1.filter (mdFilePred ex) = ch2.filter (mdFilePred ex)) :
    buildRecursiveContent s (.folder n1 ch1) ex lvl
      = buildRecursiveContent s (.folder n2 ch2) ex lvl := by
  rw [buildRec_folder, buildRec_folder, childBlocks_eq_map, childBlocks_eq_map,
      List.filter_map, List.filter_map]
  have hcomp : ((fun p : Entry × List String => folderPred s p.1)
      ∘ (fun c => (c, buildRecursiveContent s c ex (lvl + 1)))) = folderPred s := rfl
  rw [hcomp, hsub, hfile]

/-- The target name of a folder's own index document, `name + ".md"`,
written as the reconcile step receives it. -/
theorem append_dot_md (n : String) : n ++ "." ++ "md" = n ++ ".md" := by
  rw [String.append_assoc]
  rfl

/-- The deep-level expected content is determined by the filtered children. -/
theorem level3Content_congr (s : Settings) (n : String) {ch1 ch2 : List Entry}
    (hsub : ch1.filter (folderPred s) = ch2.filter (folderPred s))
    (hfile : ch1.filter (mdFilePred (n ++ ".md")) = ch2.filter (mdFilePred (n ++ ".md"))) :
    level3Content s n ch1 = level3Content s n ch2 := by
  unfold level3Content
  rw [buildRec_congr s n n (n ++ ".md") 0 hsub hfile]

/-! ## Shape preservation of the level transforms -/

theorem level3Transform_folder_ex {s : Settings} {n : String} {ch : List Entry}
    (h : excludedContains s n = true) :
    level3Transform s (.folder n ch) = (.folder n ch, 0) := by
  simp [level3Transform, h]

theorem level3Transform_folder {s : Settings} {n : String} {ch : List Entry}
    (h : excludedContains s n = false) :
    level3Transform s (.folder n ch)
      = (.folder n (reconcileChild ch n "md" (level3Content s n ch)).1,
         (reconcileChild ch n "md" (level3Content s n ch)).2) := by
  simp [level3Transform, h]

theorem level3Transform_fst_name (s : Settings) : ∀ x : Entry,
    ((level3Transform s x).1).name = x.name
  | .file b e c => rfl
  | .folder n ch => by
    cases h : excludedContains s n
    · rw [level3Transform_folder h]
      rfl
    · rw [level3Transform_folder_ex h]


theorem level3Transform_fst_isFolder (s : Settings) : ∀ x : Entry,
    ((level3Transform s x).1).isFolder = x.isFolder
  | .file b e c => rfl
  | .folder n ch => by
    cases h : excludedContains s n
    · rw [level3Transform_folder h]
      rfl
    · rw [level3Transform_folder_ex h]

theorem level3Step_file (s : Settings) (b e c : String) :
    level3Step s (.file b e c) = (.file b e c, 0) := by
  unfold level3Step
  rw [folderPred_file]
  rfl

theorem level3Step_fst_name (s : Settings) (x : Entry) :
    ((level3Step s x).1).name = x.name := by
  unfold level3Step
  cases h : folderPred s x
  · rfl
  · exact level3Transform_fst_name s x

theorem level3Step_fst_isFolder (s : Settings) (x : Entry) :
    ((level3Step s x).1).isFolder = x.isFolder := by
  unfold level3Step
  cases h : folderPred s x
  · rfl
  · exact level3Transform_fst_isFolder s x

theorem folderPred_l3step (s : Settings) (c : Entry) :
    folderPred s ((level3Step s c).1) = folderPred s c :=
  folderPred_congr (level3Step_fst_name s c) (level3Step_fst_isFolder s c)

theorem mdFilePred_l3step (s : Settings) (nm : String) : ∀ c : Entry,
    mdFilePred nm ((level3Step s c).1) = mdFilePred nm c
  | .file b e cc => by rw [level3Step_file]
  | .folder n ch => by
    obtain ⟨n2, ch2, hsh⟩ := @isFolder_shape ((level3Step s (.folder n ch)).1)
      (by rw [level3Step_fst_isFolder]; rfl)
    rw [hsh]
    rfl

theorem l3step_id_of_file (s : Settings) : ∀ {c : Entry},
    c.isFile = true → (level3Step s c).1 = c
  | .file b e cc, _ => by rw [level3Step_file]
  | .folder _ _, h => nomatch h

theorem mdFilePred_isFile {nm : String} {c : Entry}
    (h : mdFilePred nm c = true) : c.isFile = true := by
  unfold mdFilePred at h
  rw [Bool.and_eq_true, Bool.and_eq_true] at h
  exact h.1.1

theorem level2Transform_folder_ex {s : Settings} {n : String} {ch : List Entry}
    (h : excludedContains s n = true) :
    level2Transform s (.folder n ch) = (.folder n ch, 0) := by
  simp [level2Transform, h]

theorem level2Transform_folder {s : Settings} {n : String} {ch : List Entry}
    (h : excludedContains s n = false) :
    level2Transform s (.folder n ch)
      = (.folder n (reconcileChild ((ch.map (level3Step s)).map Prod.fst) n "md"
                      (level2Content s n ch)).1,
         (((ch.map (level3Step s)).map Prod.snd).sum
           + (reconcileChild ((ch.map (level3Step s)).map Prod.fst) n "md"
                (level2Content s n ch)).2)) := by
  simp [level2Transform, h]

theorem level2Transform_fst_name (s : Settings) : ∀ x : Entry,
    ((level2Transform s x).1).name = x.name
  | .file b e c => rfl
  | .folder n ch => by
    cases h : excludedContains s n
    · rw [level2Transform_folder h]
      rfl
    · rw [level2Transform_folder_ex h]

theorem level2Transform_fst_isFolder (s : Settings) : ∀ x : Entry,
    ((level2Transform s x).1).isFolder = x.isFolder
  | .file b e c => rfl
  | .folder n ch => by
    cases h : excludedContains s n
    · rw [level2Transform_folder h]
      rfl
    · rw [level2Transform_folder_ex h]

theorem level2Step_file (s : Settings) (b e c : String) :
    level2Step s (.file b e c) = (.file b e c, 0) := by
  unfold level2Step
  rw [folderPred_file]
  rfl

theorem level2Step_fst_name (s : Settings) (x : Entry) :
    ((level2Step s x).1).name = x.name := by
  unfold level2Step
  cases h : folderPred s x
  · rfl
  · exact level2Transform_fst_name s x

theorem level2Step_fst_isFolder (s : Settings) (x : Entry) :
    ((level2Step s x).1).isFolder = x.isFolder := by
  unfold level2Step
  cases h : folderPred s x
  · rfl
  · exact level2Transform_fst_isFolder s x

theorem folderPred_l2step (s : Settings) (c : Entry) :
    folderPred s ((level2Step s c).1) = folderPred s c :=
  folderPred_congr (level2Step_fst_name s c) (level2Step_fst_isFolder s c)

theorem map_steps_fst {step : Entry → Entry × Nat} : ∀ {l : List Entry},
    (∀ y ∈ l, step y = (y, 0)) → (l.map step).map Prod.fst = l := by
  intro l
  induction l with
  | nil => intro _; rfl
  | cons y ys ih =>
    intro h
    rw [List.map_cons, List.map_cons, h y (List.mem_cons_self y ys),
        ih (fun z hz => h z (List.mem_cons_of_mem y hz))]

theorem map_steps_snd {step : Entry → Entry × Nat} : ∀ {l : List Entry},
    (∀ y ∈ l, step y = (y, 0)) → ((l.map step).map Prod.snd).sum = 0 := by
  intro l
  induction l with
  | nil => intro _; rfl
  | cons y ys ih =>
    intro h
    rw [List.map_cons, List.map_cons, h y (List.mem_cons_self y ys), List.sum_cons,
        ih (fun z hz => h z (List.mem_cons_of_mem y hz))]

theorem reconcileChild_after_map {f : Entry → Entry}
    (hname : ∀ x, (f x).name = x.name)
    (hfile : ∀ b0 e0 c0, f (.file b0 e0 c0) = .file b0 e0 c0)
    (hfold : ∀ x, (f x).isFolder = x.isFolder)
    (ch : List Entry) (b e c : String) :
    reconcileChild ((reconcileChild ch b e c).1.map f) b e c
      = ((reconcileChild ch b e c).1.map f, 0) := by
  cases hf : findByName ch (b ++ "." ++ e) with
  | none =>
    rw [reconcileChild_none hf]
    have hfind : findByName ((ch ++ [Entry.file b e c]).map f) (b ++ "." ++ e)
        = some (Entry.file b e c) := by
      rw [findByName_map hname, findByName_append_none hf (Entry.file b e c) rfl,
          Option.map_some']
      rw [hfile]
    exact reconcileChild_file_eq hfind rfl
  | some x =>
    cases x with
    | folder n cs =>
      rw [reconcileChild_folder hf]
      have hfind : findByName (ch.map f) (b ++ "." ++ e) = some (f (.folder n cs)) := by
        rw [findByName_map hname, hf, Option.map_some']
      obtain ⟨n2, cs2, hsh⟩ := @isFolder_shape (f (.folder n cs)) (by rw [hfold]; rfl)
      rw [hsh] at hfind
      exact reconcileChild_folder hfind
    | file b0 e0 c0 =>
      by_cases ht : jsTrim c0 = jsTrim c
      · rw [reconcileChild_file_eq hf ht]
        have hfind : findByName (ch.map f) (b ++ "." ++ e) = some (Entry.file b0 e0 c0) := by
          rw [findByName_map hname, hf, Option.map_some', hfile]
        exact reconcileChild_file_eq hfind ht
      · rw [reconcileChild_file_ne hf ht]
        have hfind : findByName ((modifyFirst ch (b ++ "." ++ e) c).map f) (b ++ "." ++ e)
            = some (Entry.file b0 e0 c) := by
          rw [findByName_map hname, findByName_modifyFirst hf c, Option.map_some', hfile]
        exact reconcileChild_file_eq hfind rfl

/-! ## Idempotence of the level transforms and of the full pass -/

theorem level3Transform_idem (s : Settings) : ∀ A : Entry,
    level3Transform s (level3Transform s A).1 = ((level3Transform s A).1, 0)
  | .file b e c => rfl
  | .folder n ch => by
    cases hex : excludedContains s n
    · rw [level3Transform_folder hex]
      show level3Transform s
          (.folder n (reconcileChild ch n "md" (level3Content s n ch)).1)
        = (.folder n (reconcileChild ch n "md" (level3Content s n ch)).1, 0)
      rw [level3Transform_folder hex]
      have hsub : ((reconcileChild ch n "md" (level3Content s n ch)).1).filter (folderPred s)
          = ch.filter (folderPred s) :=
        reconcile_filter _ ch n "md" _ (fun b0 e0 c0 _ => folderPred_file s b0 e0 c0)
      have hfile : ((reconcileChild ch n "md" (level3Content s n ch)).1).filter
            (mdFilePred (n ++ ".md"))
          = ch.filter (mdFilePred (n ++ ".md")) :=
        reconcile_filter (mdFilePred (n ++ ".md")) ch n "md" _
          (fun b0 e0 c0 hh => mdFilePred_self _ (hh.trans (append_dot_md n)))
      have hc : level3Content s n ((reconcileChild ch n "md" (level3Content s n ch)).1)
          = level3Content s n ch := level3Content_congr s n hsub hfile
      rw [hc, reconcileChild_twice]
    · rw [level3Transform_folder_ex hex]
      exact level3Transform_folder_ex hex

theorem level3Step_step_idem (s : Settings) (x : Entry) :
    level3Step s ((level3Step s x).1) = ((level3Step s x).1, 0) := by
  cases hfp : folderPred s x
  · have hx : level3Step s x = (x, 0) := by
      unfold level3Step
      rw [hfp]
      rfl
    rw [hx]
    exact hx
  · have hx : level3Step s x = level3Transform s x := by
      unfold level3Step
      rw [hfp]
      rfl
    rw [hx]
    have hp2 : folderPred s ((level3Transform s x).1) = true := by
      rw [folderPred_congr (level3Transform_fst_name s x) (level3Transform_fst_isFolder s x)]
      exact hfp
    have hstep : level3Step s ((level3Transform s x).1)
        = level3Transform s ((level3Transform s x).1) := by
      unfold level3Step
      rw [hp2]
      rfl
    rw [hstep]
    exact level3Transform_idem s x

theorem level2Transform_idem_aux (s : Settings) (n : String) (ch : List Entry)
    (hex : excludedContains s n = false) :
    level2Transform s
        (.folder n (reconcileChild ((ch.map (level3Step s)).map Prod.fst) n "md"
                      (level2Content s n ch)).1)
      = (.folder n (reconcileChild ((ch.map (level3Step s)).map Prod.fst) n "md"
                      (level2Content s n ch)).1, 0) := by
  rw [level2Transform_folder hex]
  have hmfst : (ch.map (level3Step s)).map Prod.fst
      = ch.map (fun x => (level3Step s x).1) := by
    rw [List.map_map]
    rfl
  have hfoldnames :
      (((reconcileChild ((ch.map (level3Step s)).map Prod.fst) n "md"
          (level2Content s n ch)).1).filter (folderPred s)).map Entry.name
        = (ch.filter (folderPred s)).map Entry.name := by
    rw [reconcile_filter _ _ n "md" _ (fun b0 e0 c0 _ => folderPred_file s b0 e0 c0), hmfst]
    exact filter_names_map _ _ (folderPred_l3step s) (level3Step_fst_name s) ch
  have hfiles :
      ((reconcileChild ((ch.map (level3Step s)).map Prod.fst) n "md"
          (level2Content s n ch)).1).filter (mdFilePred (n ++ ".md"))
        = ch.filter (mdFilePred (n ++ ".md")) := by
    rw [reconcile_filter (mdFilePred (n ++ ".md")) _ n "md" _
          (fun b0 e0 c0 hh => mdFilePred_self _ (hh.trans (append_dot_md n))), hmfst]
    exact filter_map_pointwise _ _ (mdFilePred_l3step s (n ++ ".md"))
      (fun c hc => l3step_id_of_file s (mdFilePred_isFile hc)) ch
  have hcont :
      level2Content s n (reconcileChild ((ch.map (level3Step s)).map Prod.fst) n "md"
          (level2Content s n ch)).1
        = level2Content s n ch :=
    level2Content_congr s n hfoldnames hfiles
  have hpt : ∀ y ∈ (reconcileChild ((ch.map (level3Step s)).map Prod.fst) n "md"
      (level2Content s n ch)).1, level3Step s y = (y, 0) := by
    intro y hy
    cases y with
    | file yb ye yc => exact level3Step_file s yb ye yc
    | folder yn ych =>
      have hy2 : (Entry.folder yn ych) ∈ (ch.map (level3Step s)).map Prod.fst :=
        mem_reconcile_folder hy rfl
      rw [hmfst] at hy2
      obtain ⟨x, hx, hxe⟩ := List.mem_map.mp hy2
      rw [← hxe]
      exact level3Step_step_idem s x
  rw [hcont, map_steps_fst hpt, map_steps_snd hpt,
      reconcileChild_twice ((ch.map (level3Step s)).map Prod.fst) n "md"
        (level2Content s n ch)]
  rfl

theorem level2Transform_idem (s : Settings) : ∀ P : Entry,
    level2Transform s (level2Transform s P).1 = ((level2Transform s P).1, 0)
  | .file b e c => rfl
  | .folder n ch => by
    cases hex : excludedContains s n
    · rw [level2Transform_folder hex]
      exact level2Transform_idem_aux s n ch hex
    · rw [level2Transform_folder_ex hex]
      exact level2Transform_folder_ex hex

theorem level2Step_step_idem (s : Settings) (x : Entry) :
    level2Step s ((level2Step s x).1) = ((level2Step s x).1, 0) := by
  cases hfp : folderPred s x
  · have hx : level2Step s x = (x, 0) := by
      unfold level2Step
      rw [hfp]
      rfl
    rw [hx]
    exact hx
  · have hx : level2Step s x = level2Transform s x := by
      unfold level2Step
      rw [hfp]
      rfl
    rw [hx]
    have hp2 : folderPred s ((level2Transform s x).1) = true := by
      rw [folderPred_congr (level2Transform_fst_name s x) (level2Transform_fst_isFolder s x)]
      exact hfp
    have hstep : level2Step s ((level2Transform s x).1)
        = level2Transform s ((level2Transform s x).1) := by
      unfold level2Step
      rw [hp2]
      rfl
    rw [hstep]
    exact level2Transform_idem s x

theorem initializeStructure_unfold (s : Settings) (root : List Entry) :
    initializeStructure s root
      = (((reconcileChild root s.navigationFileName "md" (rootContent s root)).1.map
            (level2Step s)).map Prod.fst,
         (reconcileChild root s.navigationFileName "md" (rootContent s root)).2
           + (((reconcileChild root s.navigationFileName "md" (rootContent s root)).1.map
                (level2Step s)).map Prod.snd).sum) := rfl

theorem initializeStructure_idem_aux (s : Settings) (root : List Entry) :
    initializeStructure s
        (((reconcileChild root s.navigationFileName "md" (rootContent s root)).1.map
            (level2Step s)).map Prod.fst)
      = ((((reconcileChild root s.navigationFileName "md" (rootContent s root)).1.map
            (level2Step s)).map Prod.fst), 0) := by
  have hm2 : ((reconcileChild root s.navigationFileName "md" (rootContent s root)).1.map
        (level2Step s)).map Prod.fst
      = (reconcileChild root s.navigationFileName "md" (rootContent s root)).1.map
          (fun x => (level2Step s x).1) := by
    rw [List.map_map]
    rfl
  have hpt : ∀ y ∈ ((reconcileChild root s.navigationFileName "md"
      (rootContent s root)).1.map (level2Step s)).map Prod.fst,
      level2Step s y = (y, 0) := by
    intro y hy
    rw [hm2] at hy
    obtain ⟨x, hx, hxe⟩ := List.mem_map.mp hy
    rw [← hxe]
    exact level2Step_step_idem s x
  have hcroot : rootContent s (((reconcileChild root s.navigationFileName "md"
        (rootContent s root)).1.map (level2Step s)).map Prod.fst)
      = rootContent s root := by
    apply rootContent_congr
    rw [hm2, filter_names_map _ _ (folderPred_l2step s) (level2Step_fst_name s),
        reconcile_filter _ _ s.navigationFileName "md" _
          (fun b0 e0 c0 _ => folderPred_file s b0 e0 c0)]
  have hsil := @reconcileChild_after_map (fun x => (level2Step s x).1)
    (level2Step_fst_name s)
    (fun b0 e0 c0 => by
      show (level2Step s (Entry.file b0 e0 c0)).1 = Entry.file b0 e0 c0
      rw [level2Step_file])
    (level2Step_fst_isFolder s)
    root s.navigationFileName "md" (rootContent s root)
  rw [← hm2] at hsil
  rw [initializeStructure_unfold, hcroot, hsil]
  show (((((reconcileChild root s.navigationFileName "md" (rootContent s root)).1.map
            (level2Step s)).map Prod.fst).map (level2Step s)).map Prod.fst,
        0 + (((((reconcileChild root s.navigationFileName "md"
            (rootContent s root)).1.map (level2Step s)).map Prod.fst).map
              (level2Step s)).map Prod.snd).sum)
      = ((((reconcileChild root s.navigationFileName "md" (rootContent s root)).1.map
            (level2Step s)).map Prod.fst), 0)
  rw [map_steps_fst hpt, map_steps_snd hpt]

/-- Claim C2 core lemma: a second full synchronization pass over the result
of a first pass performs zero writes and changes nothing. -/
theorem initializeStructure_idem (s : Settings) (root : List Entry) :
    initializeStructure s (initializeStructure s root).1
      = ((initializeStructure s root).1, 0) :=
  initializeStructure_idem_aux s root

/-! ## Helper facts for the claim theorems -/

theorem mdFilePred_name_ne {nm : String} {c : Entry} (h : mdFilePred nm c = true) :
    c.name ≠ nm := by
  unfold mdFilePred at h
  rw [Bool.and_eq_true] at h
  exact bne_iff_ne.mp h.2

theorem folderPred_not_excluded {s : Settings} {c : Entry} (h : folderPred s c = true) :
    excludedContains s c.name = false := by
  unfold folderPred at h
  rw [Bool.and_eq_true] at h
  cases hval : excludedContains s c.name
  · rfl
  · rw [hval] at h
    exact absurd h.2 (by decide)

theorem filter_sub (p q : Entry → Bool) (h : ∀ c, q c = true → p c = true) :
    ∀ ch : List Entry, (ch.filter p).filter q = ch.filter q := by
  intro ch
  induction ch with
  | nil => rfl
  | cons c cs ih =>
    rw [List.filter_cons]
    cases hp : p c
    · have hq : q c = false := by
        cases hqv : q c
        · rfl
        · rw [h c hqv] at hp
          cases hp
      simpa [List.filter_cons, hq] using ih
    · cases hq : q c
      · simpa [List.filter_cons, hq] using ih
      · simpa [List.filter_cons, hq] using ih

/-! ## The claims -/

/-- Claim C2: for every store state and configuration, running a full
synchronization pass twice in succession with no store mutation between the
passes performs zero create or overwrite operations on the second pass; the
second pass reads back exactly the content it would write (up to the trim
comparison of the reconcile step) and therefore also leaves the tree
unchanged. -/
theorem claim_C2 (s : Settings) (root : List Entry) :
    (initializeStructure s (initializeStructure s root).1).2 = 0 ∧
    (initializeStructure s (initializeStructure s root).1).1
      = (initializeStructure s root).1 := by
  rw [initializeStructure_idem]
  exact ⟨rfl, rfl⟩

/-- Claim C5: both the subfolder list and the document list of every
generated listing are sorted by the modelled locale-aware, case-insensitive,
numeric-aware comparison (natLe on names for folders, natLe on base names
for documents), and in particular documents named Section 1, Section 2,
Section 10 are listed in the order 1, 2, 10 rather than lexicographically. -/
theorem claim_C5 :
    (∀ (s : Settings) (ch : List Entry),
       (rootFolders s ch).Pairwise (fun a b => natLe a.name b.name = true)) ∧
    (∀ (s : Settings) (ch : List Entry),
       (level2SubFolders s ch).Pairwise (fun a b => natLe a.name b.name = true)) ∧
    (∀ (nm : String) (ch : List Entry),
       (level2MdFiles nm ch).Pairwise (fun a b => natLe a.basename b.basename = true)) ∧
    (level2MdFiles "X.md"
        [ .file "Section 10" "md" "", .file "Section 2" "md" "", .file "Section 1" "md" "" ]
      ).map Entry.basename = ["Section 1", "Section 2", "Section 10"] := by
  refine ⟨?_, ?_, ?_, rfl⟩
  · intro s ch
    exact sortBy_pairwise _ (fun (a b : Entry) => natLe_total a.name b.name)
      (fun (a b c : Entry) => natLe_trans a.name b.name c.name) _
  · intro s ch
    exact sortBy_pairwise _ (fun (a b : Entry) => natLe_total a.name b.name)
      (fun (a b c : Entry) => natLe_trans a.name b.name c.name) _
  · intro nm ch
    exact sortBy_pairwise _ (fun (a b : Entry) => natLe_total a.basename b.basename)
      (fun (a b c : Entry) => natLe_trans a.basename b.basename c.basename) _

/-- Claim C9: an empty Container produces no builder lines (not an empty
bullet), its deep-level expected content is just the heading line followed
by the blank separator line and the trailing newline, and the
synchronization step for an empty non-excluded Container creates its Index
Document with exactly that content (one write). -/
theorem claim_C9 (s : Settings) (n : String) :
    buildRecursiveContent s (.folder n []) (n ++ ".md") 0 = [] ∧
    level3Content s n [] = "#Navigation for " ++ n ++ "\n\n" ++ "\n" ∧
    (excludedContains s n = false →
      level3Transform s (.folder n [])
        = (.folder n [.file n "md" ("#Navigation for " ++ n ++ "\n\n" ++ "\n")], 1)) := by
  have hb : buildRecursiveContent s (.folder n []) (n ++ ".md") 0 = [] := rfl
  have hc : level3Content s n [] = "#Navigation for " ++ n ++ "\n\n" ++ "\n" := by
    unfold level3Content
    rw [hb]
    show "#Navigation for " ++ n ++ "\n\n" ++ "" ++ "\n" = _
    rw [String.append_empty]
  refine ⟨hb, hc, ?_⟩
  intro hex
  rw [level3Transform_folder hex, hc]
  have hnone : findByName ([] : List Entry) (n ++ "." ++ "md") = none := rfl
  rw [reconcileChild_none hnone]
  rfl

/-- Claim C9 witness: the scenario folder Alpha, empty, with the default
settings. -/
theorem claim_C9_witness :
    excludedContains DEFAULT_SETTINGS "Alpha" = false ∧
    level3Transform DEFAULT_SETTINGS (.folder "Alpha" [])
      = (.folder "Alpha"
          [.file "Alpha" "md" ("#Navigation for " ++ "Alpha" ++ "\n\n" ++ "\n")], 1) :=
  ⟨rfl, (claim_C9 DEFAULT_SETTINGS "Alpha").2.2 rfl⟩

/-- Claim C10: with no persisted configuration loading settings yields the
defaults (excludedFolders = "Templates, Attachments, .trash",
navigationFileName = "Navigation"); a persisted mapping lacking a key keeps
that key's default; consequently, by default, Templates, Attachments and
.trash are the excluded names and the root index document is Navigation.md. -/
theorem claim_C10 :
    loadSettings none = DEFAULT_SETTINGS ∧
    (∀ d : SavedData, d.excludedFolders = none →
       (loadSettings (some d)).excludedFolders = "Templates, Attachments, .trash") ∧
    (∀ d : SavedData, d.navigationFileName = none →
       (loadSettings (some d)).navigationFileName = "Navigation") ∧
    getExcludedFolders (loadSettings none) = ["Templates", "Attachments", ".trash"] ∧
    (loadSettings none).navigationFileName ++ ".md" = "Navigation.md" := by
  refine ⟨rfl, ?_, ?_, rfl, rfl⟩
  · intro d hd
    simp [loadSettings, hd, DEFAULT_SETTINGS]
  · intro d hd
    simp [loadSettings, hd, DEFAULT_SETTINGS]

/-- Claim C10 witness: a persisted mapping that has only the navigation file
name keeps the default exclusion list. -/
theorem claim_C10_witness :
    (SavedData.mk none (some "Nav")).excludedFolders = none ∧
    (loadSettings (some (SavedData.mk none (some "Nav")))).excludedFolders
      = "Templates, Attachments, .trash" :=
  ⟨rfl, claim_C10.2.1 (SavedData.mk none (some "Nav")) rfl⟩

/-- Claim C3: excluded Containers are skipped entirely: the first- and
deeper-level synchronization steps leave an excluded folder and its whole
subtree untouched and write nothing; an excluded folder never appears in the
root listing, the first-level sub-folder listing, or the builder's sub-folder
scan; and deleting every excluded sub-folder together with its descendants
from a folder does not change the builder's output, so excluded subtrees are
never visited. -/
theorem claim_C3 :
    (∀ (s : Settings) (n : String) (ch : List Entry), excludedContains s n = true →
       level2Transform s (.folder n ch) = (.folder n ch, 0) ∧
       level3Transform s (.folder n ch) = (.folder n ch, 0)) ∧
    (∀ (s : Settings) (c : Entry), excludedContains s c.name = true →
       level2Step s c = (c, 0) ∧ level3Step s c = (c, 0)) ∧
    (∀ (s : Settings) (rootCh : List Entry) (f : Entry),
       f ∈ rootFolders s rootCh → excludedContains s f.name = false) ∧
    (∀ (s : Settings) (ch : List Entry) (f : Entry),
       f ∈ level2SubFolders s ch → excludedContains s f.name = false) ∧
    (∀ (s : Settings) (ch : List Entry) (ex : String) (lvl : Nat) (p : Entry × List String),
       p ∈ (childBlocks s ch ex lvl).filter (fun q => folderPred s q.1) →
       excludedContains s p.1.name = false) ∧
    (∀ (s : Settings) (n ex : String) (lvl : Nat) (ch : List Entry),
       buildRecursiveContent s
           (.folder n (ch.filter (fun c => !(c.isFolder && excludedContains s c.name))))
           ex lvl
         = buildRecursiveContent s (.folder n ch) ex lvl) := by
  refine ⟨?_, ?_, ?_, ?_, ?_, ?_⟩
  · intro s n ch hex
    exact ⟨level2Transform_folder_ex hex, level3Transform_folder_ex hex⟩
  · intro s c hex
    have hfp : folderPred s c = false := by
      unfold folderPred
      rw [hex]
      simp
    constructor
    · unfold level2Step
      rw [hfp]
      rfl
    · unfold level3Step
      rw [hfp]
      rfl
  · intro s rootCh f hf
    unfold rootFolders at hf
    rw [mem_sortBy] at hf
    exact folderPred_not_excluded (List.mem_filter.mp hf).2
  · intro s ch f hf
    unfold level2SubFolders at hf
    rw [mem_sortBy] at hf
    exact folderPred_not_excluded (List.mem_filter.mp hf).2
  · intro s ch ex lvl p hp
    exact folderPred_not_excluded (List.mem_filter.mp hp).2
  · intro s n ex lvl ch
    apply buildRec_congr
    · apply filter_sub
      intro c hc
      cases c with
      | folder nn chch =>
        have hexcl := folderPred_not_excluded hc
        show (!(Entry.isFolder (.folder nn chch) && excludedContains s nn)) = true
        rw [show (Entry.folder nn chch).name = nn from rfl] at hexcl
        rw [hexcl]
        rfl
      | file b e cc =>
        rw [folderPred_file] at hc
        exact nomatch hc
    · apply filter_sub
      intro c hc
      have hisf := mdFilePred_isFile hc
      cases c with
      | file b e cc => rfl
      | folder nn chch => exact nomatch hisf

/-- Claim C3 witness: the default-excluded folder Templates is left
untouched with zero writes by the first-level step. -/
theorem claim_C3_witness :
    excludedContains DEFAULT_SETTINGS "Templates" = true ∧
    level2Transform DEFAULT_SETTINGS (.folder "Templates" [.file "X" "md" "hi"])
      = (.folder "Templates" [.file "X" "md" "hi"], 0) :=
  ⟨rfl, (claim_C3.1 DEFAULT_SETTINGS "Templates" [.file "X" "md" "hi"] rfl).1⟩

/-- Claim C4: an Index Document is never listed among its own entries: the
first-level document scan excludes the document whose display name equals
the target index name, the builder's document scan excludes the designated
index name at every nesting level, and removing every file carrying the
index name leaves the builder output unchanged — the filters run on every
regeneration, so the property holds after arbitrarily many regenerations. -/
theorem claim_C4 :
    (∀ (nm : String) (ch : List Entry) (f : Entry),
       f ∈ level2MdFiles nm ch → f.name ≠ nm) ∧
    (∀ (ex : String) (ch : List Entry) (f : Entry),
       f ∈ sortBy (fun a b => natLe a.basename b.basename) (ch.filter (mdFilePred ex)) →
       f.name ≠ ex) ∧
    (∀ (s : Settings) (n ex : String) (lvl : Nat) (ch : List Entry),
       buildRecursiveContent s
           (.folder n (ch.filter (fun c => !(c.isFile && c.name == ex)))) ex lvl
         = buildRecursiveContent s (.folder n ch) ex lvl) := by
  refine ⟨?_, ?_, ?_⟩
  · intro nm ch f hf
    unfold level2MdFiles at hf
    rw [mem_sortBy] at hf
    exact mdFilePred_name_ne (List.mem_filter.mp hf).2
  · intro ex ch f hf
    rw [mem_sortBy] at hf
    exact mdFilePred_name_ne (List.mem_filter.mp hf).2
  · intro s n ex lvl ch
    apply buildRec_congr
    · apply filter_sub
      intro c hc
      cases c with
      | folder nn chch => rfl
      | file b e cc =>
        rw [folderPred_file] at hc
        exact nomatch hc
    · apply filter_sub
      intro c hc
      have hne := mdFilePred_name_ne hc
      show (!(c.isFile && (c.name == ex))) = true
      rw [beq_eq_false_iff_ne.mpr hne]
      simp

/-- Claim C4 witness: in a folder P holding its own index document P.md and
a document Notes.md, the scan lists Notes.md and the listed entry's name
differs from the index name. -/
theorem claim_C4_witness :
    (Entry.file "Notes" "md" "")
        ∈ level2MdFiles "P.md" [.file "P" "md" "", .file "Notes" "md" ""] ∧
    (Entry.file "Notes" "md" "").name ≠ "P.md" :=
  ⟨List.Mem.head _, claim_C4.1 "P.md" [.file "P" "md" "", .file "Notes" "md" ""]
    (Entry.file "Notes" "md" "") (List.Mem.head _)⟩

/-- Claim C6: the reconcile step: when no document exists at the target path
it attempts creation with the expected content; if that creation fails and
the re-fetch finds a document it overwrites with the expected content, and
if the re-fetch still finds nothing it performs no further operation; when a
document exists it overwrites exactly when the trimmed current content
differs from the trimmed expected content. -/
theorem claim_C6 (h : HostOutcomes) (expected : String) :
    (h.lookup1 = none → h.createError = none →
       reconcileHost h expected = .ok [.tryCreate expected]) ∧
    (∀ err cur, h.lookup1 = none → h.createError = some err → h.lookup2 = some cur →
       h.modifyError = none →
       reconcileHost h expected = .ok [.tryCreate expected, .overwrite expected]) ∧
    (∀ err, h.lookup1 = none → h.createError = some err → h.lookup2 = none →
       reconcileHost h expected = .ok [.tryCreate expected]) ∧
    (∀ cur, h.lookup1 = some cur → h.readError = none → ∀ ops,
       reconcileHost h expected = .ok ops →
       (VaultOp.overwrite expected ∈ ops ↔ jsTrim cur ≠ jsTrim expected)) := by
  refine ⟨?_, ?_, ?_, ?_⟩
  · intro h1 h2
    simp [reconcileHost, h1, h2]
  · intro err cur h1 h2 h3 h4
    simp [reconcileHost, h1, h2, h3, h4]
  · intro err h1 h2 h3
    simp [reconcileHost, h1, h2, h3]
  · intro cur h1 h2 ops hops
    by_cases ht : jsTrim cur = jsTrim expected
    · simp [reconcileHost, h1, h2, ht] at hops
      subst hops
      simp [ht]
    · cases hm : h.modifyError with
      | none =>
        simp [reconcileHost, h1, h2, ht, hm] at hops
        subst hops
        simp [ht]
      | some e =>
        simp [reconcileHost, h1, h2, ht, hm] at hops

/-- Claim C6 witness: a creation race (lookup finds nothing, creation fails,
re-fetch finds the concurrently created document) is recovered by an
overwrite with the expected content. -/
theorem claim_C6_witness :
    reconcileHost (HostOutcomes.mk none (some "EEXIST") (some "old") none none) "x"
      = .ok [.tryCreate "x", .overwrite "x"] :=
  (claim_C6 (HostOutcomes.mk none (some "EEXIST") (some "old") none none) "x").2.1
    "EEXIST" "old" rfl rfl rfl rfl

/-- Claim C7 counterexample: a permission or I/O failure during creation,
with the target still absent on re-fetch, is caught by the engine rather
than propagated: the reconcile step reports success (no uncaught error) and
the synchronization pass continues instead of aborting, refuting the claim
that every store failure other than the creation race propagates. -/
theorem claim_C7_counterexample :
    reconcileHost
        (HostOutcomes.mk none (some "EACCES: permission denied") none none none) "x"
      = .ok [.tryCreate "x"] := rfl

/-- Claim C7 (amended): read failures and overwrite failures are not caught
and propagate out of the reconcile step, aborting the current pass; but a
creation failure of any kind is caught by the catch-block: it is recovered
into an overwrite when the target is present on re-fetch (only that
overwrite's own failure propagates) and is silently swallowed when the
target is still absent. -/
theorem claim_C7 (h : HostOutcomes) (expected : String) :
    (∀ cur err, h.lookup1 = some cur → h.readError = some err →
       reconcileHost h expected = .error err) ∧
    (∀ cur err, h.lookup1 = some cur → h.readError = none →
       jsTrim cur ≠ jsTrim expected → h.modifyError = some err →
       reconcileHost h expected = .error err) ∧
    (∀ err err2 cur, h.lookup1 = none → h.createError = some err →
       h.lookup2 = some cur → h.modifyError = some err2 →
       reconcileHost h expected = .error err2) ∧
    (∀ err, h.lookup1 = none → h.createError = some err → h.lookup2 = none →
       reconcileHost h expected = .ok [.tryCreate expected]) := by
  refine ⟨?_, ?_, ?_, ?_⟩
  · intro cur err h1 h2
    simp [reconcileHost, h1, h2]
  · intro cur err h1 h2 ht h3
    simp [reconcileHost, h1, h2, ht, h3]
  · intro err err2 cur h1 h2 h3 h4
    simp [reconcileHost, h1, h2, h3, h4]
  · intro err h1 h2 h3
    simp [reconcileHost, h1, h2, h3]

/-- Claim C7 witness: an I/O failure while reading the existing document
propagates out of the reconcile step. -/
theorem claim_C7_witness :
    reconcileHost (HostOutcomes.mk (some "current") none none (some "EIO") none) "x"
      = .error "EIO" :=
  (claim_C7 (HostOutcomes.mk (some "current") none none (some "EIO") none) "x").1
    "current" "EIO" rfl rfl

/-- A concrete store for claim C1: folder P at depth one, A at depth two,
B at depth three holding one document. -/
def c1DemoRoot : List Entry :=
  [ .folder "P" [ .folder "A" [ .folder "B" [ .file "Doc" "md" "" ] ] ] ]

/-- Claim C1 counterexample: after a full synchronization pass on c1DemoRoot
with the default settings, the depth-three Container B is untouched: it
still holds only its original document, and no Index Document B.md exists in
it (B appears only as an outline heading inside A.md).  This refutes the
claim that every Container at depth three or deeper also receives its own
Index Document. -/
theorem claim_C1_counterexample :
    (initializeStructure DEFAULT_SETTINGS c1DemoRoot).1
      = [ .folder "P"
            [ .folder "A"
                [ .folder "B" [ .file "Doc" "md" "" ]
                , .file "A" "md" "#Navigation for A\n\n- **B**\n  - [[Doc]]\n" ]
            , .file "P" "md" "#Navigation for P\n\n- [[P/A/A|A]]\n" ]
        , .file "Navigation" "md" "#Navigation\n\n- [[P/P|P]]\n" ] ∧
    findByName (Entry.folder "B" [ .file "Doc" "md" "" ]).children "B.md" = none :=
  ⟨rfl, rfl⟩

/-- Claim C1 (amended): the Recursive-Content-Builder index strategy applies
to Containers at depth exactly two: for every non-excluded first-level
folder and every non-excluded sub-folder A of it whose target index path is
not occupied by a folder, the first-level synchronization step leaves inside
A an index document named A.name + ".md" whose content agrees, up to the
reconcile step's trim comparison, with the heading plus the full output of
the Recursive Content Builder applied to A.  Containers at depth three or
deeper receive no such document (see the counterexample). -/
theorem claim_C1 (s : Settings) (n : String) (ch : List Entry) (A : Entry)
    (hexP : excludedContains s n = false)
    (hA : A ∈ ch) (hfold : A.isFolder = true)
    (hexA : excludedContains s A.name = false)
    (hclear : ∀ cs : List Entry,
      findByName A.children (A.name ++ ".md") ≠ some (.folder (A.name ++ ".md") cs)) :
    ∃ A2 ∈ ((level2Transform s (.folder n ch)).1).children,
      A2.name = A.name ∧
      ∃ b e c, findByName A2.children (A.name ++ ".md") = some (.file b e c) ∧
        jsTrim c = jsTrim (level3Content s A.name A.children) := by
  obtain ⟨nA, chA, rfl⟩ := isFolder_shape hfold
  rw [level2Transform_folder hexP]
  have hfp : folderPred s (.folder nA chA) = true := by
    unfold folderPred
    rw [hexA]
    rfl
  have hstep : level3Step s (.folder nA chA) = level3Transform s (.folder nA chA) := by
    unfold level3Step
    rw [hfp]
    rfl
  have hmem1 : (level3Transform s (.folder nA chA)).1
      ∈ (ch.map (level3Step s)).map Prod.fst := by
    have h1 : level3Step s (.folder nA chA) ∈ ch.map (level3Step s) :=
      List.mem_map_of_mem _ hA
    have h2 := List.mem_map_of_mem Prod.fst h1
    rw [hstep] at h2
    exact h2
  have hfold2 : ((level3Transform s (.folder nA chA)).1).isFolder = true := by
    rw [level3Transform_fst_isFolder]
    rfl
  refine ⟨(level3Transform s (.folder nA chA)).1,
    mem_reconcile_of_mem_folder hmem1 hfold2,
    level3Transform_fst_name s _, ?_⟩
  have hexA2 : excludedContains s nA = false := hexA
  rw [level3Transform_folder hexA2]
  show ∃ b e c, findByName (reconcileChild chA nA "md" (level3Content s nA chA)).1
      (nA ++ ".md") = some (.file b e c) ∧
    jsTrim c = jsTrim (level3Content s nA chA)
  rw [← append_dot_md nA]
  cases hf : findByName chA (nA ++ "." ++ "md") with
  | none =>
    rw [reconcileChild_none hf]
    exact ⟨nA, "md", level3Content s nA chA,
      findByName_append_none hf (Entry.file nA "md" (level3Content s nA chA)) rfl, rfl⟩
  | some x =>
    cases x with
    | file b0 e0 c0 =>
      by_cases ht : jsTrim c0 = jsTrim (level3Content s nA chA)
      · rw [reconcileChild_file_eq hf ht]
        exact ⟨b0, e0, c0, hf, ht⟩
      · rw [reconcileChild_file_ne hf ht]
        exact ⟨b0, e0, level3Content s nA chA, findByName_modifyFirst hf _, rfl⟩
    | folder n2 cs2 =>
      exfalso
      rw [append_dot_md nA] at hf
      have hn2 : n2 = nA ++ ".md" := findByName_name hf
      subst hn2
      exact hclear cs2 hf

/-- Claim C1 witness: with the default settings, folder P holding the empty
folder A: the first-level step creates A's own index document. -/
theorem claim_C1_witness :
    excludedContains DEFAULT_SETTINGS "P" = false ∧
    excludedContains DEFAULT_SETTINGS "A" = false ∧
    (∃ A2 ∈ ((level2Transform DEFAULT_SETTINGS
        (.folder "P" [Entry.folder "A" []])).1).children,
      A2.name = (Entry.folder "A" ([] : List Entry)).name ∧
      ∃ b e c, findByName A2.children
          ((Entry.folder "A" ([] : List Entry)).name ++ ".md") = some (.file b e c) ∧
        jsTrim c = jsTrim (level3Content DEFAULT_SETTINGS
          (Entry.folder "A" ([] : List Entry)).name
          (Entry.folder "A" ([] : List Entry)).children)) :=
  ⟨rfl, rfl,
    claim_C1 DEFAULT_SETTINGS "P" [Entry.folder "A" []] (Entry.folder "A" [])
      rfl (List.Mem.head _) rfl rfl (fun _ hcs => nomatch hcs)⟩
